import Mathlib

/-!
Verification development for the `scrapidy` YC founders scraper
(`src/yc_founders_scraper.py`).  The Python functions are shallowly
embedded as executable Lean functions over explicit character lists, so
that every definition can be evaluated on concrete inputs by `decide`.
-/

/-! ## Python string primitives, modelled over `List Char` -/

/-- Characters stripped by Python `str.strip()` (ASCII whitespace). -/
def isPySpace (c : Char) : Bool :=
  c = ' ' || c = '\t' || c = '\n' || c = '\r' || c = '\x0b' || c = '\x0c'

/-- Remove trailing characters satisfying `p`. -/
def dropTrailing (p : Char → Bool) (l : List Char) : List Char :=
  (l.reverse.dropWhile p).reverse

/-- Python `str.strip()` on a character list. -/
def stripChars (l : List Char) : List Char :=
  dropTrailing isPySpace (l.dropWhile isPySpace)

/-- Python `str.strip()`. -/
def pyStrip (s : String) : String :=
  String.mk (stripChars s.toList)

/-- Python `str.split(c)` for a single-character separator. -/
def splitOnChar (c : Char) : List Char → List (List Char)
  | [] => [[]]
  | x :: xs =>
    if x = c then [] :: splitOnChar c xs
    else
      match splitOnChar c xs with
      | [] => [[x]]
      | l :: ls => (x :: l) :: ls

/-- Split a character list at every character satisfying `p` (keeping
empty chunks), the helper behind Python whitespace `str.split()`. -/
def splitOnPred (p : Char → Bool) : List Char → List (List Char)
  | [] => [[]]
  | x :: xs =>
    if p x then [] :: splitOnPred p xs
    else
      match splitOnPred p xs with
      | [] => [[x]]
      | l :: ls => (x :: l) :: ls

/-- Python `str.split()` with no argument: split on whitespace runs and
drop empty fields. -/
def pySplit (s : String) : List String :=
  ((splitOnPred isPySpace s.toList).filter (fun l => decide (l ≠ []))).map String.mk

/-- Find the first occurrence of `sep` in a list; on success return the
characters before the occurrence and the characters after it.  This is
the helper behind Python's substring test `sep in s` and
`s.split(sep, 1)`. -/
def firstSplit (sep : List Char) : List Char → Option (List Char × List Char)
  | [] => if sep.isPrefixOf ([] : List Char) then some ([], []) else none
  | c :: l =>
    if sep.isPrefixOf (c :: l) then some ([], (c :: l).drop sep.length)
    else
      match firstSplit sep l with
      | some (a, b) => some (c :: a, b)
      | none => none

/-- Python substring containment `sub in s`. -/
def containsSub (s sub : String) : Bool :=
  (firstSplit sub.toList s.toList).isSome

/-- Python `s.split(sep, 1)`. -/
def splitFirst (s sep : String) : List String :=
  match firstSplit sep.toList s.toList with
  | some (a, b) => [String.mk a, String.mk b]
  | none => [s]

/-- Fuelled worker for the full Python `s.split(sep)`. -/
def splitAllAux (sep : List Char) : Nat → List Char → List (List Char)
  | 0, l => [l]
  | fuel + 1, l =>
    match firstSplit sep l with
    | none => [l]
    | some (a, b) => a :: splitAllAux sep fuel b

/-- Python `s.split(sep)` for a non-empty separator. -/
def pySplitOn (s sep : String) : List String :=
  (splitAllAux sep.toList (s.toList.length + 1) s.toList).map String.mk

/-- Python `s.replace("**", "")`: delete non-overlapping `**` pairs left
to right. -/
def removeStars : List Char → List Char
  | '*' :: '*' :: l => removeStars l
  | c :: l => c :: removeStars l
  | [] => []

/-- Python `s.replace("**", "")` on strings. -/
def replaceStars (s : String) : String :=
  String.mk (removeStars s.toList)

/-- Python `re.search(r"[SWFX]\d{2}", line)`: scan left to right for the
earliest three-character match and return it. -/
def findBatch : List Char → Option String
  | c1 :: c2 :: c3 :: l =>
    if (c1 = 'S' || c1 = 'W' || c1 = 'F' || c1 = 'X') && c2.isDigit && c3.isDigit then
      some (String.mk [c1, c2, c3])
    else findBatch (c2 :: c3 :: l)
  | _ => none

/-- Python `str.lower()` (ASCII). -/
def pyLower (s : String) : String :=
  String.mk (s.toList.map Char.toLower)

/-- The line preprocessing of `parse_founder_text`:
`[line.strip() for line in text.split('\n') if line.strip()]`. -/
def pyLines (text : String) : List String :=
  (((splitOnChar '\n' text.toList).map stripChars).filter (fun l => decide (l ≠ []))).map String.mk

/-! ## The text parser (`parse_founder_text`) -/

/-- The record built by `parse_founder_text` (Python dict with these six
keys, all initialised to `''`). -/
structure FounderInfo where
  first_name : String
  last_name : String
  current_role : String
  current_company : String
  batch : String
  linkedin_url : String
deriving Repr, DecidableEq

/-- The source's fixed list of title keywords. -/
def role_indicators : List String :=
  ["CEO", "CTO", "Founder", "Co-founder", "President", "VP", "Chief", "Director"]

/-- Python `any(indicator in line for indicator in role_indicators)`. -/
def hasKw (line : String) : Bool :=
  role_indicators.any (fun indicator => containsSub line indicator)

/-- The guard of the combined branch:
`' at ' in line and any(indicator in line for ...)`. -/
def combinedLine (line : String) : Bool :=
  containsSub line " at " && hasKw line

/-- One iteration of the `for line in lines[1:]` loop of
`parse_founder_text`. -/
def processLine (founder_info : FounderInfo) (line : String) : FounderInfo :=
  if combinedLine line then
    match splitFirst line " at " with
    | [role, company] =>
      { founder_info with current_role := pyStrip role, current_company := pyStrip company }
    | _ => founder_info
  else if (findBatch line.toList).isSome && founder_info.batch = "" then
    { founder_info with batch := (findBatch line.toList).getD "" }
  else if founder_info.current_role = "" && hasKw line then
    { founder_info with current_role := line }
  else founder_info

/-- Shallow embedding of `parse_founder_text` (lines 168-223 of
`yc_founders_scraper.py`). -/
def parse_founder_text (text : String) : FounderInfo :=
  let lines := pyLines text
  let founder_info : FounderInfo := ⟨"", "", "", "", "", ""⟩
  match lines with
  | [] => founder_info
  | first :: rest =>
    let founder_info :=
      match pySplit first with
      | [] => founder_info
      | [n] => { founder_info with first_name := n }
      | n :: more => { founder_info with first_name := n, last_name := String.intercalate " " more }
    let founder_info := rest.foldl processLine founder_info
    let founder_info :=
      if founder_info.current_role ≠ "" then
        { founder_info with current_role := pyStrip (replaceStars founder_info.current_role) }
      else founder_info
    let founder_info :=
      if founder_info.current_company ≠ "" then
        { founder_info with current_company := pyStrip (replaceStars founder_info.current_company) }
      else founder_info
    founder_info

/-! ## The profile link resolver (`extract_linkedin_url`) -/

/-- Name slug derivation of `extract_linkedin_url`: from a profile URL
such as `/founders/38677-andy-fang`, take the part after `/founders/`,
drop the leading identifier, and lowercase the rest. -/
def founderNameFromUrl (profile_url : String) : String :=
  if containsSub profile_url "/founders/" then
    let url_parts := pySplitOn ((pySplitOn profile_url "/founders/").getLastD "") "-"
    if url_parts.length > 1 then pyLower (String.intercalate "-" url_parts.tail) else ""
  else ""

/-- Python `linkedin_url.split("/in/")[-1].split("/")[0].lower()`. -/
def linkedinUsername (url : String) : String :=
  pyLower (((pySplitOn ((pySplitOn url "/in/").getLastD "") "/").headD ""))

/-- The name-fragment matching test of the best-match loop:
`founder_name_from_url and any(name_part in linkedin_username for
name_part in founder_name_from_url.split("-") if len(name_part) > 2)`. -/
def nameMatches (profile_url url : String) : Bool :=
  let founder_name_from_url := founderNameFromUrl profile_url
  decide (founder_name_from_url ≠ "") &&
    ((pySplitOn founder_name_from_url "-").filter (fun p => decide (p.length > 2))).any
      (fun name_part => containsSub (linkedinUsername url) name_part)

/-- The categorisation step of the `for element in linkedin_elements`
loop: append each valid URL to the personal or company list. -/
def classifyLink (acc : List String × List String) (url : String) : List String × List String :=
  if url = "" || !containsSub url "linkedin.com" then acc
  else if containsSub url "/in/" then (acc.1 ++ [url], acc.2)
  else if containsSub url "/company/" then (acc.1, acc.2 ++ [url])
  else if containsSub url "/pub/" then (acc.1 ++ [url], acc.2)
  else acc

/-- Shallow embedding of `extract_linkedin_url` (lines 225-309).  The
page's outbound link hrefs are passed as `hrefs` in discovery order. -/
def extract_linkedin_url (profile_url : String) (hrefs : List String) : Option String :=
  if profile_url = "" then none
  else
    let pc := hrefs.foldl classifyLink ([], [])
    match pc.1 with
    | [] =>
      match pc.2 with
      | [] => none
      | u :: _ => some u
    | p0 :: _ =>
      match pc.1.find? (fun u => nameMatches profile_url u) with
      | some best_match => some best_match
      | none => some p0

/-! ## The exporter (`save_to_csv`) -/

/-- The fixed column schema of `save_to_csv`. -/
def csv_columns : List String :=
  ["first_name", "last_name", "current_role", "current_company", "batch", "linkedin_url", "profile_url"]

/-- Python `founder.get(col, '')` over a record modelled as an
association list. -/
def dictGet (founder : List (String × String)) (col : String) : String :=
  match founder.find? (fun kv => kv.1 = col) with
  | some kv => kv.2
  | none => ""

/-- Shallow embedding of `save_to_csv` (lines 420-439): `none` models
"no file written"; otherwise the logical rows of the written file,
header first. -/
def save_to_csv (data : List (List (String × String))) : Option (List (List String)) :=
  match data with
  | [] => none
  | _ => some (csv_columns :: data.map (fun founder => csv_columns.map (fun col => dictGet founder col)))

/-! ## The exhaustive-loading scroll loop (`scroll_to_load_all_founders`) -/

/-- The mutable state of the scroll loop. -/
structure ScrollState where
  last_height : Nat
  founders_loaded : Nat
  no_change_count : Nat
deriving Repr, DecidableEq

/-- One iteration of the `while True` scroll loop, given the freshly
queried page height `h` and founder-entry count `c`.  Returns the next
state and whether the loop breaks. -/
def scrollStep (h c : Nat) (s : ScrollState) : ScrollState × Bool :=
  let lc : Nat × Nat :=
    if c > s.founders_loaded then (c, 0) else (s.founders_loaded, s.no_change_count + 1)
  if h = s.last_height then
    let ncc := lc.2 + 1
    if ncc ≥ 3 then
      ({ last_height := s.last_height, founders_loaded := lc.1, no_change_count := ncc }, true)
    else
      ({ last_height := h, founders_loaded := lc.1, no_change_count := ncc }, false)
  else
    ({ last_height := h, founders_loaded := lc.1, no_change_count := 0 }, false)

/-- Run the scroll loop against a page trace `page` (iteration `i`
observes height and entry count `page i`), with `fuel` iterations
allowed.  Returns the index of the breaking iteration, if reached. -/
def scrollIter (page : Nat → Nat × Nat) : Nat → Nat → ScrollState → Option Nat
  | 0, _, _ => none
  | fuel + 1, i, s =>
    let hc := page i
    let sb := scrollStep hc.1 hc.2 s
    if sb.2 then some i else scrollIter page fuel (i + 1) sb.1

/-! ## The overview extractor and pipeline (`extract_founder_overview_data`,
`scrape_founders`) -/

/-- The per-founder record as assembled by the pipeline: the six parser
fields plus `profile_url`, which stores the anchor's raw `href`
attribute (`None` when the attribute is absent). -/
structure FounderRecord where
  first_name : String
  last_name : String
  current_role : String
  current_company : String
  batch : String
  linkedin_url : String
  profile_url : Option String
deriving Repr, DecidableEq

/-- Shallow embedding of `extract_founder_overview_data` (lines
128-166): each page element contributes its visible text and its `href`
attribute. -/
def extract_founder_overview_data (elements : List (String × Option String)) : List FounderRecord :=
  elements.map (fun element =>
    let founder_info := parse_founder_text (pyStrip element.1)
    { first_name := founder_info.first_name
      last_name := founder_info.last_name
      current_role := founder_info.current_role
      current_company := founder_info.current_company
      batch := founder_info.batch
      linkedin_url := founder_info.linkedin_url
      profile_url := element.2 })

/-- The LinkedIn-resolution pass of `scrape_founders` (lines 401-409):
`pages` maps a profile URL to the linkedin hrefs found on that page. -/
def scrape_founders_records (elements : List (String × Option String))
    (pages : String → List String) : List FounderRecord :=
  (extract_founder_overview_data elements).map (fun founder =>
    match founder.profile_url with
    | some p =>
      if p ≠ "" then { founder with linkedin_url := (extract_linkedin_url p (pages p)).getD "" }
      else founder
    | none => founder)

/-! ## Definitions written from the spec's words, for comparison -/

/-- Claim C2's batch rule: the first `[SWFX]\d{2}` match found in any
line of the block. -/
def scanBatchAll : List String → Option String
  | [] => none
  | l :: ls =>
    match findBatch l.toList with
    | some b => some b
    | none => scanBatchAll ls

/-- Amended batch rule: first match among the given lines, skipping
lines that match the combined role-at-company pattern. -/
def scanBatch : List String → Option String
  | [] => none
  | l :: ls =>
    if combinedLine l then scanBatch ls
    else
      match findBatch l.toList with
      | some b => some b
      | none => scanBatch ls

/-- Amended bare-role rule: the first line containing a title keyword
that is not claimed by the batch rule; `bset` records whether `batch`
is already non-empty. -/
def bareScan : List String → Bool → String
  | [], _ => ""
  | l :: ls, bset =>
    if (findBatch l.toList).isSome && !bset then bareScan ls true
    else if hasKw l then l
    else bareScan ls bset

/-- Claim C6's classification of a personal link: path containing
`/in/` or `/pub/`. -/
def claimPersonal (url : String) : Bool :=
  containsSub url "/in/" || containsSub url "/pub/"

/-- Claim C6's classification of an organizational link. -/
def claimOrganizational (url : String) : Bool :=
  containsSub url "/company/"

/-- A link the resolver considers at all. -/
def validLink (url : String) : Bool :=
  !(url = "" || !containsSub url "linkedin.com")

/-- The selection procedure exactly as claim C6 words it, using the
claim's own link classification. -/
def claimResolve (profile_url : String) (hrefs : List String) : Option String :=
  let links := hrefs.filter validLink
  let personal := links.filter claimPersonal
  let organizational := links.filter claimOrganizational
  match personal.find? (fun u => nameMatches profile_url u) with
  | some u => some u
  | none =>
    match personal with
    | u :: _ => some u
    | [] => organizational.head?

/-- Amended personal-link classification, with the code's precedence:
`/in/` wins, then `/company/`, then `/pub/`. -/
def personalLink (url : String) : Bool :=
  containsSub url "/in/" || (!containsSub url "/company/" && containsSub url "/pub/")

/-- Amended organizational-link classification. -/
def organizationalLink (url : String) : Bool :=
  !containsSub url "/in/" && containsSub url "/company/"

/-- The selection procedure of amended claim C6. -/
def specResolve (profile_url : String) (hrefs : List String) : Option String :=
  let links := hrefs.filter validLink
  let personal := links.filter personalLink
  let organizational := links.filter organizationalLink
  match personal.find? (fun u => nameMatches profile_url u) with
  | some u => some u
  | none =>
    match personal with
    | u :: _ => some u
    | [] => organizational.head?

/-- The stall counter exactly as claim C8 words it: incremented when the
height is unchanged, reset when the entry count increases, terminating
when it reaches 3. -/
def claimStep (h c : Nat) (s : ScrollState) : ScrollState × Bool :=
  let loaded := if c > s.founders_loaded then c else s.founders_loaded
  let ncc0 := if c > s.founders_loaded then 0 else s.no_change_count
  let ncc := if h = s.last_height then ncc0 + 1 else ncc0
  (⟨h, loaded, ncc⟩, decide (ncc ≥ 3))

/-- Run claim C8's loop description against a page trace. -/
def claimIter (page : Nat → Nat × Nat) : Nat → Nat → ScrollState → Option Nat
  | 0, _, _ => none
  | fuel + 1, i, s =>
    let hc := page i
    let sb := claimStep hc.1 hc.2 s
    if sb.2 then some i else claimIter page fuel (i + 1) sb.1

/-! ## Helper lemmas about the string primitives -/

theorem string_mk_toList (l : List Char) : (String.mk l).toList = l := rfl

theorem string_mk_eq_empty_iff (l : List Char) : String.mk l = "" ↔ l = [] := by
  constructor
  · intro h
    have := congrArg String.toList h
    simpa [string_mk_toList] using this
  · rintro rfl; rfl

theorem isPrefixOf_exists (a : List Char) : ∀ l : List Char,
    a.isPrefixOf l = true ↔ ∃ t, l = a ++ t := by
  induction a with
  | nil =>
    intro l
    simp [List.isPrefixOf]
  | cons x a ih =>
    intro l
    cases l with
    | nil =>
      simp [List.isPrefixOf]
    | cons y l =>
      simp only [List.isPrefixOf, Bool.and_eq_true, beq_iff_eq, ih, List.cons_append,
        List.cons.injEq]
      constructor
      · rintro ⟨rfl, t, rfl⟩
        exact ⟨t, rfl, rfl⟩
      · rintro ⟨t, rfl, rfl⟩
        exact ⟨rfl, t, rfl⟩

theorem firstSplit_eq_some (sep : List Char) : ∀ (l a b : List Char),
    firstSplit sep l = some (a, b) → l = a ++ sep ++ b := by
  intro l
  induction l with
  | nil =>
    intro a b h
    simp only [firstSplit] at h
    split at h
    · rename_i hpre
      obtain ⟨t, ht⟩ := (isPrefixOf_exists sep []).mp hpre
      cases h
      have hsep : sep = [] := by
        cases sep with
        | nil => rfl
        | cons x xs => simp at ht
      simp [hsep]
    · cases h
  | cons c l ih =>
    intro a b h
    simp only [firstSplit] at h
    split at h
    · rename_i hpre
      obtain ⟨t, ht⟩ := (isPrefixOf_exists sep (c :: l)).mp hpre
      cases h
      rw [ht, List.nil_append, List.drop_left]
    · rename_i hpre
      cases hfs : firstSplit sep l with
      | none => rw [hfs] at h; cases h
      | some ab =>
        rw [hfs] at h
        obtain ⟨a', b'⟩ := ab
        simp only [Option.some.injEq, Prod.mk.injEq] at h
        obtain ⟨ha, hb⟩ := h
        subst ha
        subst hb
        simp [ih a' b' hfs]

theorem firstSplit_isSome_iff (sep : List Char) (l : List Char) :
    (firstSplit sep l).isSome = true ↔ ∃ a b, l = a ++ sep ++ b := by
  constructor
  · intro h
    cases hfs : firstSplit sep l with
    | none => rw [hfs] at h; cases h
    | some ab =>
      exact ⟨ab.1, ab.2, firstSplit_eq_some sep l ab.1 ab.2 (by rw [hfs])⟩
  · rintro ⟨a, b, rfl⟩
    induction a with
    | nil =>
      rw [List.nil_append]
      cases hl : sep ++ b with
      | nil =>
        have hsep : sep = [] := by
          cases sep with
          | nil => rfl
          | cons x xs => simp at hl
        subst hsep
        simp [firstSplit, List.isPrefixOf]
      | cons c t =>
        simp only [firstSplit]
        have hpre : sep.isPrefixOf (c :: t) = true := by
          rw [isPrefixOf_exists]
          exact ⟨b, hl.symm⟩
        simp [hpre]
    | cons x a ih =>
      simp only [List.cons_append, firstSplit]
      split
      · simp
      · obtain ⟨ab, hab⟩ := Option.isSome_iff_exists.mp ih
        simp only [List.append_eq]
        rw [hab]
        obtain ⟨a', b'⟩ := ab
        simp

theorem containsSub_iff (s sub : String) :
    containsSub s sub = true ↔ ∃ a b, s.toList = a ++ sub.toList ++ b := by
  unfold containsSub
  exact firstSplit_isSome_iff sub.toList s.toList

theorem splitFirst_pair (s sep x y : String) (h : splitFirst s sep = [x, y]) :
    firstSplit sep.toList s.toList = some (x.toList, y.toList) := by
  unfold splitFirst at h
  cases hfs : firstSplit sep.toList s.toList with
  | none => rw [hfs] at h; cases h
  | some ab =>
    rw [hfs] at h
    obtain ⟨a, b⟩ := ab
    simp only [List.cons.injEq, and_true] at h
    obtain ⟨hx, hy⟩ := h
    rw [← hx, ← hy]
    rfl

theorem splitFirst_has_sep (s sep x y : String) (h : splitFirst s sep = [x, y]) :
    containsSub s sep = true := by
  unfold containsSub
  rw [splitFirst_pair s sep x y h]
  rfl

theorem findBatch_ne_empty : ∀ (l : List Char) (b : String),
    findBatch l = some b → b ≠ "" := by
  intro l
  induction l with
  | nil => intro b h; cases h
  | cons c1 l ih =>
    intro b h
    match l, h with
    | [], h => cases h
    | [c2], h => cases h
    | c2 :: c3 :: t, h =>
      simp only [findBatch] at h
      split at h
      · cases h
        simp [string_mk_eq_empty_iff]
      · exact ih b h

theorem dropWhile_append_single {p : Char → Bool} {c : Char} (hc : p c = false) :
    ∀ a : List Char, (a ++ [c]).dropWhile p = a.dropWhile p ++ [c] := by
  intro a
  induction a with
  | nil => simp [List.dropWhile, hc]
  | cons x a ih =>
    by_cases hx : p x = true
    · simp [List.dropWhile_cons, hx, ih]
    · simp only [Bool.not_eq_true] at hx
      simp [List.dropWhile_cons, hx]

theorem dropTrailing_cons {p : Char → Bool} {c : Char} (hc : p c = false) (l : List Char) :
    dropTrailing p (c :: l) = c :: dropTrailing p l := by
  unfold dropTrailing
  rw [List.reverse_cons, dropWhile_append_single hc, List.reverse_append]
  rfl

theorem stripChars_cons_space {c : Char} (hc : isPySpace c = true) (l : List Char) :
    stripChars (c :: l) = stripChars l := by
  unfold stripChars
  rw [List.dropWhile_cons_of_pos hc]

theorem stripChars_cons_of_ne {c : Char} (hc : isPySpace c = false) (l : List Char) :
    stripChars (c :: l) = c :: dropTrailing isPySpace l := by
  unfold stripChars
  rw [List.dropWhile_cons_of_neg (by simp [hc]), dropTrailing_cons hc]

theorem stripChars_head : ∀ (l : List Char) (c : Char) (t : List Char),
    stripChars l = c :: t → isPySpace c = false := by
  intro l
  induction l with
  | nil => intro c t h; cases h
  | cons x l ih =>
    intro c t h
    by_cases hx : isPySpace x = true
    · rw [stripChars_cons_space hx] at h
      exact ih c t h
    · simp only [Bool.not_eq_true] at hx
      rw [stripChars_cons_of_ne hx] at h
      cases h
      exact hx

theorem stripChars_ne_nil : ∀ (l : List Char) (c : Char),
    c ∈ l → isPySpace c = false → stripChars l ≠ [] := by
  intro l
  induction l with
  | nil => intro c hc; cases hc
  | cons x l ih =>
    intro c hc hns
    by_cases hx : isPySpace x = true
    · rw [stripChars_cons_space hx]
      cases hc with
      | head => rw [hns] at hx; cases hx
      | tail _ hm => exact ih c hm hns
    · simp only [Bool.not_eq_true] at hx
      rw [stripChars_cons_of_ne hx]
      simp

theorem processLine_names (info : FounderInfo) (line : String) :
    (processLine info line).first_name = info.first_name ∧
    (processLine info line).last_name = info.last_name := by
  unfold processLine
  split
  · split <;> exact ⟨rfl, rfl⟩
  · split
    · exact ⟨rfl, rfl⟩
    · split <;> exact ⟨rfl, rfl⟩

theorem foldl_names : ∀ (ls : List String) (info : FounderInfo),
    (ls.foldl processLine info).first_name = info.first_name ∧
    (ls.foldl processLine info).last_name = info.last_name := by
  intro ls
  induction ls with
  | nil => intro info; exact ⟨rfl, rfl⟩
  | cons l ls ih =>
    intro info
    rw [List.foldl_cons]
    exact ⟨(ih _).1.trans (processLine_names info l).1,
      (ih _).2.trans (processLine_names info l).2⟩

theorem processLine_batch_of_ne (info : FounderInfo) (line : String) (hb : info.batch ≠ "") :
    (processLine info line).batch = info.batch := by
  unfold processLine
  split
  · split <;> rfl
  · split
    · rename_i hguard
      simp only [Bool.and_eq_true, decide_eq_true_eq] at hguard
      exact absurd hguard.2 hb
    · split <;> rfl

theorem foldl_batch_of_ne : ∀ (ls : List String) (info : FounderInfo), info.batch ≠ "" →
    (ls.foldl processLine info).batch = info.batch := by
  intro ls
  induction ls with
  | nil => intro info _; rfl
  | cons l ls ih =>
    intro info hb
    have h1 := processLine_batch_of_ne info l hb
    rw [List.foldl_cons, ih (processLine info l) (by rw [h1]; exact hb), h1]

theorem processLine_combined (info : FounderInfo) (L X Y : String)
    (hc : combinedLine L = true) (hXY : splitFirst L " at " = [X, Y]) :
    processLine info L =
      { info with current_role := pyStrip X, current_company := pyStrip Y } := by
  unfold processLine
  rw [if_pos hc, hXY]

theorem processLine_role_company_of_ne (info : FounderInfo) (line : String)
    (hr : info.current_role ≠ "") (hc : combinedLine line = false) :
    (processLine info line).current_role = info.current_role ∧
    (processLine info line).current_company = info.current_company := by
  unfold processLine
  rw [if_neg (by simp [hc])]
  split
  · exact ⟨rfl, rfl⟩
  · split
    · rename_i hguard
      simp only [Bool.and_eq_true, decide_eq_true_eq] at hguard
      exact absurd hguard.1 hr
    · exact ⟨rfl, rfl⟩

theorem foldl_role_company_of_ne : ∀ (ls : List String) (info : FounderInfo),
    info.current_role ≠ "" → (∀ M ∈ ls, combinedLine M = false) →
    (ls.foldl processLine info).current_role = info.current_role ∧
    (ls.foldl processLine info).current_company = info.current_company := by
  intro ls
  induction ls with
  | nil => intro info _ _; exact ⟨rfl, rfl⟩
  | cons l ls ih =>
    intro info hr hnc
    have h1 := processLine_role_company_of_ne info l hr (hnc l (List.mem_cons_self _ _))
    rw [List.foldl_cons]
    have ih' := ih (processLine info l) (by rw [h1.1]; exact hr)
      (fun M hM => hnc M (List.mem_cons_of_mem l hM))
    exact ⟨ih'.1.trans h1.1, ih'.2.trans h1.2⟩

theorem processLine_company_of_not_combined (info : FounderInfo) (line : String)
    (hc : combinedLine line = false) :
    (processLine info line).current_company = info.current_company := by
  unfold processLine
  rw [if_neg (by simp [hc])]
  split
  · rfl
  · split <;> rfl

theorem foldl_company_of_not_combined : ∀ (ls : List String) (info : FounderInfo),
    (∀ M ∈ ls, combinedLine M = false) →
    (ls.foldl processLine info).current_company = info.current_company := by
  intro ls
  induction ls with
  | nil => intro info _; rfl
  | cons l ls ih =>
    intro info hnc
    rw [List.foldl_cons]
    exact (ih _ (fun M hM => hnc M (List.mem_cons_of_mem l hM))).trans
      (processLine_company_of_not_combined info l (hnc l (List.mem_cons_self _ _)))

theorem foldl_batch_scan : ∀ (ls : List String) (info : FounderInfo), info.batch = "" →
    (ls.foldl processLine info).batch = (scanBatch ls).getD "" := by
  intro ls
  induction ls with
  | nil => intro info hb; simpa [scanBatch] using hb
  | cons l ls ih =>
    intro info hb
    rw [List.foldl_cons]
    by_cases hc : combinedLine l = true
    · have hpl : (processLine info l).batch = info.batch := by
        unfold processLine
        rw [if_pos hc]
        split <;> rfl
      have hb' : (processLine info l).batch = "" := by rw [hpl]; exact hb
      rw [ih _ hb']
      simp [scanBatch, hc]
    · simp only [Bool.not_eq_true] at hc
      cases hfb : findBatch l.toList with
      | some b =>
        have hfb' : findBatch l.data = some b := hfb
        have hbne := findBatch_ne_empty l.toList b hfb
        have hpl : processLine info l = { info with batch := b } := by
          unfold processLine
          rw [if_neg (by simp [hc]), if_pos (by simp [hfb', hb]), hfb]
          rfl
        rw [hpl, foldl_batch_of_ne ls _ (by simpa using hbne)]
        simp [scanBatch, hc, hfb']
      | none =>
        have hfb' : findBatch l.data = none := hfb
        have hpl : (processLine info l).batch = info.batch := by
          unfold processLine
          rw [if_neg (by simp [hc]), if_neg (by simp [hfb'])]
          split <;> rfl
        rw [ih _ (hpl.trans hb)]
        simp [scanBatch, hc, hfb']

theorem foldl_bare_scan : ∀ (ls : List String) (info : FounderInfo),
    (∀ M ∈ ls, combinedLine M = false) → (∀ M ∈ ls, M ≠ "") →
    info.current_role = "" →
    (ls.foldl processLine info).current_role = bareScan ls (decide (info.batch ≠ "")) := by
  intro ls
  induction ls with
  | nil => intro info _ _ hr; simpa [bareScan] using hr
  | cons l ls ih =>
    intro info hnc hne hr
    have hcl : combinedLine l = false := hnc l (List.mem_cons_self _ _)
    have hnc' : ∀ M ∈ ls, combinedLine M = false :=
      fun M hM => hnc M (List.mem_cons_of_mem l hM)
    have hne' : ∀ M ∈ ls, M ≠ "" := fun M hM => hne M (List.mem_cons_of_mem l hM)
    rw [List.foldl_cons]
    by_cases hbset : info.batch = ""
    · cases hfb : findBatch l.toList with
      | some b =>
        have hfb' : findBatch l.data = some b := hfb
        have hbne := findBatch_ne_empty l.toList b hfb
        have hpl : processLine info l = { info with batch := b } := by
          unfold processLine
          rw [if_neg (by simp [hcl]), if_pos (by simp [hfb', hbset]), hfb]
          rfl
        rw [hpl, ih _ hnc' hne' (by simpa using hr)]
        simp [bareScan, hfb', hbset, hbne]
      | none =>
        have hfb' : findBatch l.data = none := hfb
        by_cases hkw : hasKw l = true
        · have hpl : processLine info l = { info with current_role := l } := by
            unfold processLine
            rw [if_neg (by simp [hcl]), if_neg (by simp [hfb']),
              if_pos (by simp [hr, hkw])]
          have hlne : l ≠ "" := hne l (List.mem_cons_self _ _)
          rw [hpl, (foldl_role_company_of_ne ls _ (by simpa using hlne) hnc').1]
          simp [bareScan, hfb', hkw]
        · simp only [Bool.not_eq_true] at hkw
          have hpl : processLine info l = info := by
            unfold processLine
            rw [if_neg (by simp [hcl]), if_neg (by simp [hfb']),
              if_neg (by simp [hkw])]
          rw [hpl, ih _ hnc' hne' hr]
          simp [bareScan, hfb', hkw]
    · cases hfb : findBatch l.toList with
      | some b =>
        have hfb' : findBatch l.data = some b := hfb
        by_cases hkw : hasKw l = true
        · have hpl : processLine info l = { info with current_role := l } := by
            unfold processLine
            rw [if_neg (by simp [hcl]), if_neg (by simp [hbset]),
              if_pos (by simp [hr, hkw])]
          have hlne : l ≠ "" := hne l (List.mem_cons_self _ _)
          rw [hpl, (foldl_role_company_of_ne ls _ (by simpa using hlne) hnc').1]
          simp [bareScan, hfb', hkw, hbset]
        · simp only [Bool.not_eq_true] at hkw
          have hpl : processLine info l = info := by
            unfold processLine
            rw [if_neg (by simp [hcl]), if_neg (by simp [hbset]),
              if_neg (by simp [hkw])]
          rw [hpl, ih _ hnc' hne' hr]
          simp [bareScan, hfb', hkw, hbset]
      | none =>
        have hfb' : findBatch l.data = none := hfb
        by_cases hkw : hasKw l = true
        · have hpl : processLine info l = { info with current_role := l } := by
            unfold processLine
            rw [if_neg (by simp [hcl]), if_neg (by simp [hfb']),
              if_pos (by simp [hr, hkw])]
          have hlne : l ≠ "" := hne l (List.mem_cons_self _ _)
          rw [hpl, (foldl_role_company_of_ne ls _ (by simpa using hlne) hnc').1]
          simp [bareScan, hfb', hkw]
        · simp only [Bool.not_eq_true] at hkw
          have hpl : processLine info l = info := by
            unfold processLine
            rw [if_neg (by simp [hcl]), if_neg (by simp [hfb']),
              if_neg (by simp [hkw])]
          rw [hpl, ih _ hnc' hne' hr]
          simp [bareScan, hfb', hkw]

theorem mem_pyLines (text M : String) (h : M ∈ pyLines text) :
    M ≠ "" ∧ ∃ m : List Char, M = String.mk (stripChars m) := by
  unfold pyLines at h
  simp only [List.mem_map, List.mem_filter, decide_eq_true_eq] at h
  obtain ⟨l, ⟨⟨m, _, hstrip⟩, hne⟩, hmk⟩ := h
  refine ⟨?_, m, ?_⟩
  · rw [← hmk]
    simpa [string_mk_eq_empty_iff] using hne
  · rw [← hmk, hstrip]

/-! ## Evaluating `parse_founder_text` symbolically -/

theorem parse_nil (text : String) (h : pyLines text = []) :
    parse_founder_text text = ⟨"", "", "", "", "", ""⟩ := by
  unfold parse_founder_text
  rw [h]

theorem parse_cons (text l0 : String) (rest : List String) (h : pyLines text = l0 :: rest) :
    parse_founder_text text =
      (let founder_info : FounderInfo := ⟨"", "", "", "", "", ""⟩
       let founder_info :=
         match pySplit l0 with
         | [] => founder_info
         | [n] => { founder_info with first_name := n }
         | n :: more => { founder_info with first_name := n, last_name := String.intercalate " " more }
       let founder_info := rest.foldl processLine founder_info
       let founder_info :=
         if founder_info.current_role ≠ "" then
           { founder_info with current_role := pyStrip (replaceStars founder_info.current_role) }
         else founder_info
       if founder_info.current_company ≠ "" then
         { founder_info with current_company := pyStrip (replaceStars founder_info.current_company) }
       else founder_info) := by
  unfold parse_founder_text
  rw [h]

theorem cleanup_fields (F : FounderInfo) :
    (let fi2 := if F.current_role ≠ "" then
         { F with current_role := pyStrip (replaceStars F.current_role) } else F
     let fi3 := if fi2.current_company ≠ "" then
         { fi2 with current_company := pyStrip (replaceStars fi2.current_company) } else fi2
     fi3.batch = F.batch ∧
     fi3.first_name = F.first_name ∧
     fi3.last_name = F.last_name ∧
     fi3.current_role =
       (if F.current_role = "" then "" else pyStrip (replaceStars F.current_role)) ∧
     fi3.current_company =
       (if F.current_company = "" then "" else pyStrip (replaceStars F.current_company))) := by
  by_cases hr : F.current_role = "" <;> by_cases hc : F.current_company = "" <;>
    simp [hr, hc]

theorem parse_fields (text l0 : String) (rest : List String) (h : pyLines text = l0 :: rest) :
    ∃ info0 : FounderInfo,
      info0.current_role = "" ∧ info0.current_company = "" ∧ info0.batch = "" ∧
      (∀ (n : String) (more : List String), pySplit l0 = n :: more →
        info0.first_name = n ∧ info0.last_name = String.intercalate " " more) ∧
      (parse_founder_text text).batch = (rest.foldl processLine info0).batch ∧
      (parse_founder_text text).first_name = (rest.foldl processLine info0).first_name ∧
      (parse_founder_text text).last_name = (rest.foldl processLine info0).last_name ∧
      (parse_founder_text text).current_role =
        (if (rest.foldl processLine info0).current_role = "" then ""
         else pyStrip (replaceStars (rest.foldl processLine info0).current_role)) ∧
      (parse_founder_text text).current_company =
        (if (rest.foldl processLine info0).current_company = "" then ""
         else pyStrip (replaceStars (rest.foldl processLine info0).current_company)) := by
  rw [parse_cons text l0 rest h]
  cases hps : pySplit l0 with
  | nil =>
    refine ⟨⟨"", "", "", "", "", ""⟩, rfl, rfl, rfl, ?_, (cleanup_fields _).1,
      (cleanup_fields _).2.1, (cleanup_fields _).2.2.1,
      (cleanup_fields _).2.2.2.1, (cleanup_fields _).2.2.2.2⟩
    intro n more hcontra
    exact List.noConfusion hcontra
  | cons n more =>
    cases more with
    | nil =>
      refine ⟨⟨n, "", "", "", "", ""⟩, rfl, rfl, rfl, ?_, (cleanup_fields _).1,
        (cleanup_fields _).2.1, (cleanup_fields _).2.2.1,
        (cleanup_fields _).2.2.2.1, (cleanup_fields _).2.2.2.2⟩
      intro n' more' heq
      obtain ⟨hn, hm⟩ : n = n' ∧ ([] : List String) = more' := by
        constructor
        · exact (List.cons.injEq _ _ _ _ ▸ heq).1
        · exact (List.cons.injEq _ _ _ _ ▸ heq).2
      subst hn
      subst hm
      exact ⟨rfl, rfl⟩
    | cons m ms =>
      refine ⟨⟨n, String.intercalate " " (m :: ms), "", "", "", ""⟩, rfl, rfl, rfl, ?_,
        (cleanup_fields _).1, (cleanup_fields _).2.1, (cleanup_fields _).2.2.1,
        (cleanup_fields _).2.2.2.1, (cleanup_fields _).2.2.2.2⟩
      intro n' more' heq
      obtain ⟨hn, hm⟩ : n = n' ∧ m :: ms = more' := by
        constructor
        · exact (List.cons.injEq _ _ _ _ ▸ heq).1
        · exact (List.cons.injEq _ _ _ _ ▸ heq).2
      subst hn
      subst hm
      exact ⟨rfl, rfl⟩

theorem clean_if_eq (s : String) :
    (if s = "" then "" else pyStrip (replaceStars s)) = pyStrip (replaceStars s) := by
  split
  · rename_i hs
    subst hs
    decide
  · rfl

/-! ## Core lemma: the last combined role-at-company line wins -/

theorem parse_last_combined (text l0 L X Y : String) (pre post : List String)
    (h : pyLines text = l0 :: (pre ++ L :: post))
    (hcomb : combinedLine L = true)
    (hXY : splitFirst L " at " = [X, Y])
    (hXne : pyStrip X ≠ "")
    (hpost : ∀ M ∈ post, combinedLine M = false) :
    (parse_founder_text text).current_role = pyStrip (replaceStars (pyStrip X)) ∧
    (parse_founder_text text).current_company = pyStrip (replaceStars (pyStrip Y)) := by
  obtain ⟨info0, h1, h2, h3, _, _, _, _, hr, hc⟩ := parse_fields text l0 (pre ++ L :: post) h
  have hfold : ((pre ++ L :: post).foldl processLine info0) =
      post.foldl processLine ({ (pre.foldl processLine info0) with
        current_role := pyStrip X, current_company := pyStrip Y }) := by
    rw [List.foldl_append, List.foldl_cons, processLine_combined _ L X Y hcomb hXY]
  have hrc := foldl_role_company_of_ne post
    ({ (pre.foldl processLine info0) with current_role := pyStrip X, current_company := pyStrip Y })
    (by simpa using hXne) hpost
  constructor
  · rw [hr, hfold, hrc.1]
    dsimp only
    exact clean_if_eq _
  · rw [hc, hfold, hrc.2]
    dsimp only
    exact clean_if_eq _

/-! ## Claims C1 to C5 and C10 about the text parser -/

/-- Claim C1, counterexample: the block `"CEO at Acme"` consists of a
single line of the form `<X> at <Y>` with `X = "CEO"` containing a title
keyword, yet `parse_founder_text` leaves `current_role` and
`current_company` empty, because the first line is consumed as the
founder name and the role loop only scans the lines after it. -/
theorem spec_C1_counterexample :
    pyLines "CEO at Acme" = ["CEO at Acme"] ∧
    splitFirst "CEO at Acme" " at " = ["CEO", "Acme"] ∧
    containsSub "CEO" "CEO" = true ∧
    (parse_founder_text "CEO at Acme").current_role = "" ∧
    (parse_founder_text "CEO at Acme").current_role ≠ "CEO" ∧
    (parse_founder_text "CEO at Acme").current_company ≠ "Acme" := by decide

/-- Claim C1, amended: for every raw text block containing, among the
lines after the first, a line `<X> at <Y>` (split at the first `" at "`)
whose role part `<X>` contains a recognized title keyword, and such that
no later line matches the combined pattern, `parse_founder_text` returns
`current_role` equal to `X` stripped of whitespace with `**` markers
removed, and `current_company` equal to `Y` treated likewise. -/
theorem spec_C1_amended (text l0 L X Y : String) (pre post : List String)
    (h : pyLines text = l0 :: (pre ++ L :: post))
    (hXY : splitFirst L " at " = [X, Y])
    (hkw : ∃ k ∈ role_indicators, containsSub X k = true)
    (hpost : ∀ M ∈ post, combinedLine M = false) :
    (parse_founder_text text).current_role = pyStrip (replaceStars (pyStrip X)) ∧
    (parse_founder_text text).current_company = pyStrip (replaceStars (pyStrip Y)) := by
  have hcs : containsSub L " at " = true := splitFirst_has_sep L " at " X Y hXY
  obtain ⟨k, hkmem, hkX⟩ := hkw
  have hfs := splitFirst_pair L " at " X Y hXY
  have hL : L.toList = X.toList ++ (" at ").toList ++ Y.toList :=
    firstSplit_eq_some _ _ _ _ hfs
  obtain ⟨a, b, hXdecomp⟩ := (containsSub_iff X k).mp hkX
  have hkL : containsSub L k = true := by
    rw [containsSub_iff]
    refine ⟨a, b ++ (" at ").toList ++ Y.toList, ?_⟩
    rw [hL, hXdecomp]
    simp
  have hkwL : hasKw L = true := by
    unfold hasKw
    rw [List.any_eq_true]
    exact ⟨k, hkmem, hkL⟩
  have hcomb : combinedLine L = true := by
    unfold combinedLine
    rw [hcs, hkwL]
    rfl
  have hXne : pyStrip X ≠ "" := by
    obtain ⟨c, hck, hcns⟩ :=
      (by decide : ∀ k ∈ role_indicators, ∃ c ∈ k.toList, isPySpace c = false) k hkmem
    have hcX : c ∈ X.toList := by
      rw [hXdecomp]
      simp only [List.mem_append]
      exact Or.inl (Or.inr hck)
    intro hcontra
    apply stripChars_ne_nil X.toList c hcX hcns
    unfold pyStrip at hcontra
    exact (string_mk_eq_empty_iff _).mp hcontra
  exact parse_last_combined text l0 L X Y pre post h hcomb hXY hXne hpost

/-- Witness for the amended claim C1 at the concrete block
`"Ann\nCEO at Acme"`. -/
theorem spec_C1_witness :
    (parse_founder_text "Ann\nCEO at Acme").current_role =
      pyStrip (replaceStars (pyStrip "CEO")) ∧
    (parse_founder_text "Ann\nCEO at Acme").current_company =
      pyStrip (replaceStars (pyStrip "Acme")) :=
  spec_C1_amended "Ann\nCEO at Acme" "Ann" "CEO at Acme" "CEO" "Acme" [] []
    (by decide) (by decide) (by decide) (by decide)

/-- Claim C2, counterexample: the block `"S21"` contains the batch code
`S21` in its (only) line, but `parse_founder_text` returns an empty
`batch`, because the batch scan skips the first line of the block. -/
theorem spec_C2_counterexample :
    scanBatchAll (pyLines "S21") = some "S21" ∧
    (parse_founder_text "S21").batch = "" ∧
    (parse_founder_text "S21").batch ≠ (scanBatchAll (pyLines "S21")).getD "" := by decide

/-- Claim C2, amended: `batch` equals the first `[SWFX]\d{2}` match
found among the lines after the first, skipping lines that match the
combined role-at-company pattern (earliest such line wins, leftmost
match within a line), and is empty when no such match exists. -/
theorem spec_C2_amended (text : String) :
    (parse_founder_text text).batch = (scanBatch (pyLines text).tail).getD "" := by
  cases h : pyLines text with
  | nil =>
    rw [parse_nil text h]
    rfl
  | cons l0 rest =>
    obtain ⟨info0, h1, h2, h3, h4, hb, _, _, _, _⟩ := parse_fields text l0 rest h
    rw [hb, foldl_batch_scan rest info0 h3]
    rfl

/-- Claim C3: the first line of the block is split on whitespace; the
first token becomes `first_name` and the remaining tokens joined by
single spaces become `last_name` (empty when there is a single token). -/
theorem spec_C3_thm (text first t : String) (rest ts : List String)
    (h1 : pyLines text = first :: rest) (h2 : pySplit first = t :: ts) :
    (parse_founder_text text).first_name = t ∧
    (parse_founder_text text).last_name = String.intercalate " " ts := by
  obtain ⟨info0, _, _, _, h4, _, hf, hl, _, _⟩ := parse_fields text first rest h1
  obtain ⟨hn, hm⟩ := h4 t ts h2
  exact ⟨hf.trans ((foldl_names rest info0).1.trans hn),
    hl.trans ((foldl_names rest info0).2.trans hm)⟩

/-- Witness for claim C3 at the concrete blocks `"Andy Fang"` (two
tokens) and, in particular, the single-token shape is covered by
`ts = []` instantiations of the theorem. -/
theorem spec_C3_witness :
    ((parse_founder_text "Andy Fang").first_name = "Andy" ∧
      (parse_founder_text "Andy Fang").last_name = String.intercalate " " ["Fang"]) ∧
    ((parse_founder_text "Solo").first_name = "Solo" ∧
      (parse_founder_text "Solo").last_name = String.intercalate " " []) :=
  ⟨spec_C3_thm "Andy Fang" "Andy Fang" "Andy" [] ["Fang"] (by decide) (by decide),
    spec_C3_thm "Solo" "Solo" "Solo" [] [] (by decide) (by decide)⟩

/-- Claim C4, counterexample: in the block `"CEO"` no line matches the
combined pattern and the line `"CEO"` contains a bare title keyword, yet
`current_role` stays empty: the first line is the name line and is never
scanned for roles. -/
theorem spec_C4_counterexample :
    pyLines "CEO" = ["CEO"] ∧
    combinedLine "CEO" = false ∧
    hasKw "CEO" = true ∧
    (parse_founder_text "CEO").current_role = "" ∧
    (parse_founder_text "CEO").current_role ≠ "CEO" := by decide

/-- Claim C4, amended: when no line after the first matches the combined
role-at-company pattern, `current_role` is the first line after the
first that contains a bare title keyword and is not claimed by the batch
rule (a line containing a batch code while `batch` is still unset sets
`batch` instead and is skipped), with `**` markers stripped, and
`current_company` is left empty. -/
theorem spec_C4_amended (text : String)
    (hno : ∀ M ∈ (pyLines text).tail, combinedLine M = false) :
    (parse_founder_text text).current_role =
      pyStrip (replaceStars (bareScan (pyLines text).tail false)) ∧
    (parse_founder_text text).current_company = "" := by
  cases h : pyLines text with
  | nil =>
    rw [parse_nil text h]
    exact ⟨by decide, rfl⟩
  | cons l0 rest =>
    obtain ⟨info0, h1, h2, h3, _, _, _, _, hr, hc⟩ := parse_fields text l0 rest h
    have hnc : ∀ M ∈ rest, combinedLine M = false := by
      intro M hM
      exact hno M (by rw [h]; exact hM)
    have hne : ∀ M ∈ rest, M ≠ "" := by
      intro M hM
      exact (mem_pyLines text M (by rw [h]; exact List.mem_cons_of_mem l0 hM)).1
    constructor
    · rw [hr, foldl_bare_scan rest info0 hnc hne h1]
      have hdec : (decide (info0.batch ≠ "")) = false := by simp [h3]
      rw [hdec]
      exact clean_if_eq _
    · rw [hc, foldl_company_of_not_combined rest info0 hnc, h2]
      simp

/-- Witness for the amended claim C4 at the concrete block
`"Ann\nDirector of Ops"`. -/
theorem spec_C4_witness :
    (parse_founder_text "Ann\nDirector of Ops").current_role =
      pyStrip (replaceStars (bareScan (pyLines "Ann\nDirector of Ops").tail false)) ∧
    (parse_founder_text "Ann\nDirector of Ops").current_company = "" :=
  spec_C4_amended "Ann\nDirector of Ops" (by decide)

/-- Claim C5: the end-to-end scenario
`"Andy Fang\n**Co-founder** at **DoorDash**\nS13"` parses to first name
`Andy`, last name `Fang`, role `Co-founder`, company `DoorDash`, batch
`S13`. -/
theorem spec_C5_thm :
    (parse_founder_text "Andy Fang\n**Co-founder** at **DoorDash**\nS13").first_name = "Andy" ∧
    (parse_founder_text "Andy Fang\n**Co-founder** at **DoorDash**\nS13").last_name = "Fang" ∧
    (parse_founder_text "Andy Fang\n**Co-founder** at **DoorDash**\nS13").current_role = "Co-founder" ∧
    (parse_founder_text "Andy Fang\n**Co-founder** at **DoorDash**\nS13").current_company = "DoorDash" ∧
    (parse_founder_text "Andy Fang\n**Co-founder** at **DoorDash**\nS13").batch = "S13" := by
  decide

/-- Claim C10: when several lines after the first match the combined
role-at-company pattern, the last such line wins: `current_role` and
`current_company` are taken from it (cleaned), each later matching line
having overwritten the values of the earlier ones. -/
theorem spec_C10_thm (text l0 L X Y : String) (pre post : List String)
    (h : pyLines text = l0 :: (pre ++ L :: post))
    (hcomb : combinedLine L = true)
    (hXY : splitFirst L " at " = [X, Y])
    (_hearlier : ∃ M ∈ l0 :: pre, combinedLine M = true)
    (hpost : ∀ M ∈ post, combinedLine M = false) :
    (parse_founder_text text).current_role = pyStrip (replaceStars (pyStrip X)) ∧
    (parse_founder_text text).current_company = pyStrip (replaceStars (pyStrip Y)) := by
  have hLmem : L ∈ pyLines text := by
    rw [h]
    exact List.mem_cons_of_mem l0 (by simp)
  obtain ⟨hLne, m, hLm⟩ := mem_pyLines text L hLmem
  have hfs := splitFirst_pair L " at " X Y hXY
  have hL : L.toList = X.toList ++ (" at ").toList ++ Y.toList :=
    firstSplit_eq_some _ _ _ _ hfs
  have hLdata : L.toList = stripChars m := by rw [hLm]; rfl
  have hstripL : stripChars m ≠ [] := by
    intro hcontra
    apply hLne
    rw [hLm, hcontra]
  obtain ⟨c, t, hct⟩ : ∃ c t, stripChars m = c :: t := by
    cases hsm : stripChars m with
    | nil => exact absurd hsm hstripL
    | cons c t => exact ⟨c, t, rfl⟩
  have hcns : isPySpace c = false := stripChars_head m c t hct
  have hXlist : X.toList ≠ [] := by
    intro hX
    rw [hLdata, hct, hX, List.nil_append] at hL
    have hcsp : c = ' ' := by
      have := congrArg (fun l => l.head?) hL
      simpa using this
    rw [hcsp] at hcns
    exact absurd hcns (by decide)
  obtain ⟨x, xs, hxx⟩ : ∃ x xs, X.toList = x :: xs := by
    cases hx : X.toList with
    | nil => exact absurd hx hXlist
    | cons x xs => exact ⟨x, xs, rfl⟩
  have hxc : x = c := by
    rw [hLdata, hct, hxx] at hL
    have := congrArg (fun l => l.head?) hL
    simpa using this.symm
  have hXne : pyStrip X ≠ "" := by
    intro hcontra
    apply stripChars_ne_nil X.toList x (by rw [hxx]; exact List.mem_cons_self _ _)
      (by rw [hxc]; exact hcns)
    unfold pyStrip at hcontra
    exact (string_mk_eq_empty_iff _).mp hcontra
  exact parse_last_combined text l0 L X Y pre post h hcomb hXY hXne hpost

/-- Witness for claim C10 at the concrete block
`"Ann\nCEO at Acme\nCTO at Bax"`: the later matching line wins. -/
theorem spec_C10_witness :
    (parse_founder_text "Ann\nCEO at Acme\nCTO at Bax").current_role =
      pyStrip (replaceStars (pyStrip "CTO")) ∧
    (parse_founder_text "Ann\nCEO at Acme\nCTO at Bax").current_company =
      pyStrip (replaceStars (pyStrip "Bax")) :=
  spec_C10_thm "Ann\nCEO at Acme\nCTO at Bax" "Ann" "CTO at Bax" "CTO" "Bax"
    ["CEO at Acme"] [] (by decide) (by decide) (by decide) (by decide) (by decide)

/-! ## Claim C6: the profile link resolver -/

theorem classify_foldl : ∀ (hrefs P C : List String),
    hrefs.foldl classifyLink (P, C) =
      (P ++ (hrefs.filter validLink).filter personalLink,
       C ++ (hrefs.filter validLink).filter organizationalLink) := by
  intro hrefs
  induction hrefs with
  | nil =>
    intro P C
    simp
  | cons u t ih =>
    intro P C
    rw [List.foldl_cons]
    by_cases hinv : (decide (u = "") || !containsSub u "linkedin.com") = true
    · have hcl : classifyLink (P, C) u = (P, C) := by
        unfold classifyLink
        rw [if_pos hinv]
      have hvf : validLink u = false := by
        unfold validLink
        rw [hinv]
        rfl
      rw [hcl, ih P C]
      simp [List.filter_cons, hvf]
    · have hcf : (decide (u = "") || !containsSub u "linkedin.com") = false := by
        revert hinv
        cases (decide (u = "") || !containsSub u "linkedin.com") <;> simp
      have hvt : validLink u = true := by
        unfold validLink
        rw [hcf]
        rfl
      by_cases hin : containsSub u "/in/" = true
      · have hcl : classifyLink (P, C) u = (P ++ [u], C) := by
          unfold classifyLink
          rw [if_neg hinv, if_pos hin]
        have hp : personalLink u = true := by
          unfold personalLink
          rw [hin]
          rfl
        have ho : organizationalLink u = false := by
          unfold organizationalLink
          rw [hin]
          rfl
        rw [hcl, ih (P ++ [u]) C]
        simp [List.filter_cons, hvt, hp, ho]
      · have hinf : containsSub u "/in/" = false := by
          revert hin
          cases containsSub u "/in/" <;> simp
        by_cases hco : containsSub u "/company/" = true
        · have hcl : classifyLink (P, C) u = (P, C ++ [u]) := by
            unfold classifyLink
            rw [if_neg hinv, if_neg hin, if_pos hco]
          have hp : personalLink u = false := by
            unfold personalLink
            rw [hinf, hco]
            rfl
          have ho : organizationalLink u = true := by
            unfold organizationalLink
            rw [hinf, hco]
            rfl
          rw [hcl, ih P (C ++ [u])]
          simp [List.filter_cons, hvt, hp, ho]
        · have hcof : containsSub u "/company/" = false := by
            revert hco
            cases containsSub u "/company/" <;> simp
          by_cases hpub : containsSub u "/pub/" = true
          · have hcl : classifyLink (P, C) u = (P ++ [u], C) := by
              unfold classifyLink
              rw [if_neg hinv, if_neg hin, if_neg hco, if_pos hpub]
            have hp : personalLink u = true := by
              unfold personalLink
              rw [hinf, hcof, hpub]
              rfl
            have ho : organizationalLink u = false := by
              unfold organizationalLink
              rw [hinf, hcof]
              rfl
            rw [hcl, ih (P ++ [u]) C]
            simp [List.filter_cons, hvt, hp, ho]
          · have hpubf : containsSub u "/pub/" = false := by
              revert hpub
              cases containsSub u "/pub/" <;> simp
            have hcl : classifyLink (P, C) u = (P, C) := by
              unfold classifyLink
              rw [if_neg hinv, if_neg hin, if_neg hco, if_neg hpub]
            have hp : personalLink u = false := by
              unfold personalLink
              rw [hinf, hcof, hpubf]
              rfl
            have ho : organizationalLink u = false := by
              unfold organizationalLink
              rw [hinf, hcof]
              rfl
            rw [hcl, ih P C]
            simp [List.filter_cons, hvt, hp, ho]

/-- Claim C6, counterexample: the claim classifies any link whose path
contains `/in/` or `/pub/` as personal, but the code checks `/company/`
before `/pub/`; on a page whose links are a pure company link followed
by a company link that also contains `/pub/`, the claim selects the
second link while the code returns the first. -/
theorem spec_C6_counterexample :
    extract_linkedin_url "p"
        ["https://www.linkedin.com/company/acme",
         "https://www.linkedin.com/company/acme/pub/x"] =
      some "https://www.linkedin.com/company/acme" ∧
    claimResolve "p"
        ["https://www.linkedin.com/company/acme",
         "https://www.linkedin.com/company/acme/pub/x"] =
      some "https://www.linkedin.com/company/acme/pub/x" ∧
    extract_linkedin_url "p"
        ["https://www.linkedin.com/company/acme",
         "https://www.linkedin.com/company/acme/pub/x"] ≠
      claimResolve "p"
        ["https://www.linkedin.com/company/acme",
         "https://www.linkedin.com/company/acme/pub/x"] := by decide

/-- Claim C6, amended: with links classified by the code's precedence
(`/in/` makes a link personal; otherwise `/company/` makes it
organizational; otherwise `/pub/` makes it personal), the resolver
returns the first personal link in discovery order whose identifying
token contains a name fragment of length greater than 2 from the
profile slug, else the first personal link, else the first
organizational link, else none. -/
theorem spec_C6_amended (profile_url : String) (hrefs : List String)
    (hp : profile_url ≠ "") :
    extract_linkedin_url profile_url hrefs = specResolve profile_url hrefs := by
  unfold extract_linkedin_url specResolve
  rw [if_neg hp, classify_foldl hrefs [] []]
  simp only [List.nil_append]
  cases hper : (hrefs.filter validLink).filter personalLink with
  | nil =>
    cases horg : (hrefs.filter validLink).filter organizationalLink with
    | nil => rfl
    | cons o os => rfl
  | cons p ps =>
    cases hfind : (p :: ps).find? (fun u => nameMatches profile_url u) with
    | none => rfl
    | some u => rfl

/-- Witness for the amended claim C6 on a page with a single matching
personal link. -/
theorem spec_C6_witness :
    extract_linkedin_url "https://www.ycombinator.com/founders/1-ann"
        ["https://www.linkedin.com/in/ann"] =
      specResolve "https://www.ycombinator.com/founders/1-ann"
        ["https://www.linkedin.com/in/ann"] :=
  spec_C6_amended "https://www.ycombinator.com/founders/1-ann"
    ["https://www.linkedin.com/in/ann"] (by decide)

/-! ## Claim C7: the exporter -/

/-- Claim C7: with no records, no file is written; with records, the
output is one header row with the seven columns in fixed order followed
by one row per record in record order, and a field missing from a
record is rendered as the empty string. -/
theorem spec_C7_thm (data : List (List (String × String))) :
    (data = [] → save_to_csv data = none) ∧
    (data ≠ [] →
      save_to_csv data =
        some (csv_columns ::
          data.map (fun founder => csv_columns.map (fun col => dictGet founder col))) ∧
      (data.map (fun founder => csv_columns.map (fun col => dictGet founder col))).length =
        data.length) ∧
    (∀ (founder : List (String × String)) (col : String),
      (∀ kv ∈ founder, kv.1 ≠ col) → dictGet founder col = "") := by
  refine ⟨?_, ?_, ?_⟩
  · rintro rfl
    rfl
  · intro hne
    cases data with
    | nil => exact absurd rfl hne
    | cons d ds => exact ⟨rfl, by simp⟩
  · intro founder col hmiss
    unfold dictGet
    have hfind : founder.find? (fun kv => kv.1 = col) = none :=
      List.find?_eq_none.mpr (by
        intro kv hkv
        simp [hmiss kv hkv])
    rw [hfind]

/-- Witness for claim C7: empty input writes nothing; a one-record input
yields a header plus one row; a missing column renders as empty. -/
theorem spec_C7_witness :
    save_to_csv [] = none ∧
    save_to_csv [[("first_name", "Ann")]] =
      some (csv_columns ::
        [csv_columns.map (fun col => dictGet [("first_name", "Ann")] col)]) ∧
    dictGet [("x", "y")] "batch" = "" :=
  ⟨(spec_C7_thm []).1 rfl,
   ((spec_C7_thm [[("first_name", "Ann")]]).2.1 (by simp)).1,
   (spec_C7_thm []).2.2 [("x", "y")] "batch" (by decide)⟩

/-! ## Claim C8: the scroll loop -/

theorem scrollStep_eq (h c : Nat) (s : ScrollState) :
    scrollStep h c s =
      if h = s.last_height then
        (if (if c > s.founders_loaded then 0 else s.no_change_count + 1) + 1 ≥ 3 then
          ({ last_height := s.last_height,
             founders_loaded := if c > s.founders_loaded then c else s.founders_loaded,
             no_change_count := (if c > s.founders_loaded then 0 else s.no_change_count + 1) + 1 },
           true)
        else
          ({ last_height := h,
             founders_loaded := if c > s.founders_loaded then c else s.founders_loaded,
             no_change_count := (if c > s.founders_loaded then 0 else s.no_change_count + 1) + 1 },
           false))
      else
        ({ last_height := h,
           founders_loaded := if c > s.founders_loaded then c else s.founders_loaded,
           no_change_count := 0 }, false) := by
  unfold scrollStep
  by_cases hcl : c > s.founders_loaded <;> simp [hcl]

theorem scrollStep_lh (h c : Nat) (s : ScrollState)
    (hb : (scrollStep h c s).2 = false) : (scrollStep h c s).1.last_height = h := by
  rw [scrollStep_eq] at hb ⊢
  by_cases hh : h = s.last_height
  · rw [if_pos hh] at hb ⊢
    by_cases h3 : (if c > s.founders_loaded then 0 else s.no_change_count + 1) + 1 ≥ 3
    · rw [if_pos h3] at hb
      simp at hb
    · rw [if_neg h3] at hb ⊢
  · rw [if_neg hh] at hb ⊢

theorem scrollStep_le_loaded (h c : Nat) (s : ScrollState) :
    c ≤ (scrollStep h c s).1.founders_loaded := by
  rw [scrollStep_eq]
  by_cases hh : h = s.last_height
  · rw [if_pos hh]
    by_cases h3 : (if c > s.founders_loaded then 0 else s.no_change_count + 1) + 1 ≥ 3
    · rw [if_pos h3]
      dsimp only
      split <;> omega
    · rw [if_neg h3]
      dsimp only
      split <;> omega
  · rw [if_neg hh]
    dsimp only
    split <;> omega

theorem scrollStep_ncc (h c : Nat) (s : ScrollState)
    (hh : h = s.last_height) (hb : (scrollStep h c s).2 = false) :
    1 ≤ (scrollStep h c s).1.no_change_count := by
  rw [scrollStep_eq] at hb ⊢
  rw [if_pos hh] at hb ⊢
  by_cases h3 : (if c > s.founders_loaded then 0 else s.no_change_count + 1) + 1 ≥ 3
  · rw [if_pos h3] at hb
    simp at hb
  · rw [if_neg h3] at hb ⊢
    dsimp only
    omega

theorem scrollStep_breaks (h c : Nat) (s : ScrollState)
    (hh : h = s.last_height) (hcl : ¬ c > s.founders_loaded)
    (hn : 1 ≤ s.no_change_count) : (scrollStep h c s).2 = true := by
  rw [scrollStep_eq, if_pos hh]
  simp only [if_neg hcl]
  rw [if_pos (show s.no_change_count + 1 + 1 ≥ 3 by omega)]

theorem scroll_frozen_breaks (page : Nat → Nat × Nat) (i : Nat) (s : ScrollState)
    (h1 : page (i + 1) = page i) (h2 : page (i + 2) = page i) :
    (scrollIter page 3 i s).isSome = true := by
  cases hpi : page i with
  | mk H C =>
  have h1' : page (i + 1) = (H, C) := by rw [h1, hpi]
  have h2' : page (i + 1 + 1) = (H, C) := by
    rw [show i + 1 + 1 = i + 2 from rfl, h2, hpi]
  unfold scrollIter
  rw [hpi]
  dsimp only
  by_cases hb1 : (scrollStep H C s).2 = true
  · rw [if_pos hb1]
    rfl
  · rw [if_neg hb1]
    rw [Bool.not_eq_true] at hb1
    unfold scrollIter
    rw [h1']
    dsimp only
    by_cases hb2 : (scrollStep H C (scrollStep H C s).1).2 = true
    · rw [if_pos hb2]
      rfl
    · rw [if_neg hb2]
      rw [Bool.not_eq_true] at hb2
      unfold scrollIter
      rw [h2']
      dsimp only
      have hlh1 : (scrollStep H C s).1.last_height = H := scrollStep_lh H C s hb1
      have hlh2 : (scrollStep H C (scrollStep H C s).1).1.last_height = H :=
        scrollStep_lh H C _ hb2
      have hload : C ≤ (scrollStep H C (scrollStep H C s).1).1.founders_loaded :=
        scrollStep_le_loaded H C _
      have hncc : 1 ≤ (scrollStep H C (scrollStep H C s).1).1.no_change_count :=
        scrollStep_ncc H C _ hlh1.symm hb2
      have hbrk := scrollStep_breaks H C (scrollStep H C (scrollStep H C s).1).1
        hlh2.symm (by omega) hncc
      rw [if_pos hbrk]
      rfl

/-- Claim C8, counterexample: on a page whose height and entry count
never change, the loop breaks at iteration index 1 (its second
iteration), because a stalled iteration increments the counter twice
(once for the entry count, once for the height); the claim's counter —
incremented once per unchanged-height iteration and reset on entry
growth — would reach the threshold 3 only at iteration index 2. -/
theorem spec_C8_counterexample :
    scrollIter (fun _ => (10, 0)) 6 0 ⟨10, 0, 0⟩ = some 1 ∧
    claimIter (fun _ => (10, 0)) 6 0 ⟨10, 0, 0⟩ = some 2 ∧
    scrollIter (fun _ => (10, 0)) 6 0 ⟨10, 0, 0⟩ ≠
      claimIter (fun _ => (10, 0)) 6 0 ⟨10, 0, 0⟩ := by decide

/-- Claim C8, amended: the loop's stall counter is incremented once when
the entry count does not increase and once more when the height is
unchanged, and is reset when the height changes; the loop exits at the
height check once the counter reaches 3.  Consequently, for every page
trace that stops changing from step `N` on, the loop terminates within
`N + 3` iterations from any starting state. -/
theorem spec_C8_amended (page : Nat → Nat × Nat) (N : Nat) (s : ScrollState)
    (hfreeze : ∀ j, N ≤ j → page j = page N) :
    (scrollIter page (N + 3) 0 s).isSome = true := by
  suffices h : ∀ (k i : Nat), i + k = N → ∀ s : ScrollState,
      (scrollIter page (k + 3) i s).isSome = true by
    exact h N 0 (by omega) s
  intro k
  induction k with
  | zero =>
    intro i hi s0
    apply scroll_frozen_breaks
    · rw [hfreeze (i + 1) (by omega), hfreeze i (by omega)]
    · rw [hfreeze (i + 2) (by omega), hfreeze i (by omega)]
  | succ k ih =>
    intro i hi s0
    rw [show k + 1 + 3 = (k + 3) + 1 from rfl]
    unfold scrollIter
    dsimp only
    by_cases hb : (scrollStep (page i).1 (page i).2 s0).2 = true
    · rw [if_pos hb]
      rfl
    · rw [if_neg hb]
      exact ih (i + 1) (by omega) _

/-- Witness for the amended claim C8 with a page frozen from the start:
the loop terminates within 3 iterations. -/
theorem spec_C8_witness :
    (scrollIter (fun _ => (7, 5)) 3 0 ⟨0, 0, 0⟩).isSome = true :=
  spec_C8_amended (fun _ => (7, 5)) 0 ⟨0, 0, 0⟩ (fun _ _ => rfl)

/-! ## Claim C9: record shape invariants in the pipeline -/

/-- Claim C9, counterexample: a page element whose anchor carries no
`href` attribute produces a record whose `profile_url` is `None`, not a
string — the seven-fields-always-strings invariant fails for
`profile_url`. -/
theorem spec_C9_counterexample :
    scrape_founders_records [("Bob", none)] (fun _ => []) =
      [⟨"Bob", "", "", "", "", "", none⟩] ∧
    ∃ r ∈ scrape_founders_records [("Bob", none)] (fun _ => []),
      r.profile_url = none := by decide

/-- Claim C9, amended: in every record handed onward, the six textual
fields are always present strings defaulting to the empty string, while
`profile_url` mirrors the element's raw `href` attribute exactly — one
record per element in order — and is therefore `None` exactly when the
anchor had no `href`. -/
theorem spec_C9_amended (elements : List (String × Option String))
    (pages : String → List String) :
    (scrape_founders_records elements pages).length = elements.length ∧
    ∀ i : Nat,
      ((scrape_founders_records elements pages).get? i).map (fun r => r.profile_url) =
        (elements.get? i).map (fun e => e.2) := by
  constructor
  · unfold scrape_founders_records extract_founder_overview_data
    rw [List.map_map, List.length_map]
  · intro i
    unfold scrape_founders_records extract_founder_overview_data
    rw [List.map_map, List.get?_map]
    cases elements.get? i with
    | none => rfl
    | some el =>
      obtain ⟨txt, href⟩ := el
      cases href with
      | none => rfl
      | some p =>
        dsimp only [Option.map, Function.comp]
        by_cases hp : p ≠ ""
        · rw [if_pos hp]
        · rw [if_neg hp]
